import Mathlib

/-!
# Verification of the qtranscoder audio pipeline (src/transcoder.cpp, src/main.cpp)

Shallow embedding of the transcoding pipeline of `Transcoder` in
`src/transcoder.cpp`.  The libav collaborators (demuxer, decoder, resampler,
FIFO, encoder, muxer) are external; they are abstracted by the data the
pipeline observes from them:

* the decoder session is a `DecoderState`: the outcome of each
  `decodeAudioFrame` call while packets remain (`packets`), plus the frames
  the decoder still buffers when `av_read_frame` first reports end of file
  (`delayed`);
* the sample FIFO is its sample count (`Nat`), since the driver only ever
  consults `av_audio_fifo_size` and reads/writes whole blocks;
* the encoder is an `EncState`: the running `pts` global
  (transcoder.cpp:35) and the number of packets it will still deliver while
  being flushed with null frames (`pending`);
* the resampler converts sample counts 1:1 (the `av_assert0` at
  transcoder.cpp:311 pins input and output sample rates to be equal).

Loops of `Transcoder::processInput` are modelled as fuel-indexed recursive
functions returning `Option`; `none` means the fuel ran out, and fuel
sufficiency is proved separately (termination of the real loops).

Ghost counters `decoded` (samples received from the decoder) and `stored`
(samples written to the FIFO) instrument the model for the sample
conservation claims; they alter no control flow.
-/

/- ## Decoder session (transcoder.cpp:368-426) -/

/-- Outcome of one `decodeAudioFrame` call while `av_read_frame` still has
packets: `avcodec_receive_frame` either asks for more data (`noData`,
`AVERROR(EAGAIN)`) or yields a frame of `n` samples. -/
inductive DecodeOutcome
  | noData
  | frame (n : Nat)
deriving DecidableEq, Repr

/-- Abstract state of the input demuxer/decoder pair. -/
structure DecoderState where
  /-- Remaining per-call outcomes before `av_read_frame` reports EOF. -/
  packets : List DecodeOutcome
  /-- Frames the decoder still buffers when EOF is reached (delayed frames). -/
  delayed : List Nat
deriving DecidableEq, Repr

/-- Result of `Transcoder::decodeAudioFrame` (transcoder.cpp:368-426): the
`dataPresent` and `finished` out-parameters, the decoded frame's
`nb_samples`, and the successor decoder state. -/
structure DecodeStep where
  dataPresent : Bool
  nbSamples : Nat
  finished : Bool
  dec : DecoderState
deriving DecidableEq, Repr

/-- Model of `Transcoder::decodeAudioFrame`.  While packets remain, one packet is read
and fed to the decoder (lines 382-421).  When `av_read_frame` returns
`AVERROR_EOF`, `*finished` is set (line 385) and the drain receive may still
yield a delayed frame (`*dataPresent = 1`, line 419) or nothing. -/
def decodeAudioFrame : DecoderState → DecodeStep
  | ⟨.noData :: rest, del⟩ => ⟨false, 0, false, ⟨rest, del⟩⟩
  | ⟨.frame n :: rest, del⟩ => ⟨true, n, false, ⟨rest, del⟩⟩
  | ⟨[], n :: rest⟩ => ⟨true, n, true, ⟨[], rest⟩⟩
  | ⟨[], []⟩ => ⟨false, 0, true, ⟨[], []⟩⟩

/- ## readDecodeConvertAndStore (transcoder.cpp:548-604) -/

/-- Result of one `Transcoder::readDecodeConvertAndStore` call: samples added
to the FIFO, samples received from the decoder this call (ghost), the
`finished` flag, and the successor decoder state. -/
structure RdcasStep where
  fifoAdd : Nat
  decodedAdd : Nat
  finished : Bool
  dec : DecoderState
deriving DecidableEq, Repr

/-- Model of `Transcoder::readDecodeConvertAndStore`.  Mirrors lines 562-594: decode
one frame; if `*finished` is set the function returns at once
(lines 572-575) — note this happens before the `dataPresent` check, so a
delayed frame decoded in the same call is not stored; otherwise a present
frame is converted 1:1 and written to the FIFO (lines 577-593). -/
def readDecodeConvertAndStore (d : DecoderState) : RdcasStep :=
  let st := decodeAudioFrame d
  if st.finished then
    ⟨0, if st.dataPresent then st.nbSamples else 0, true, st.dec⟩
  else if st.dataPresent then
    ⟨st.nbSamples, st.nbSamples, false, st.dec⟩
  else
    ⟨0, 0, false, st.dec⟩

/- ## Encoder session (transcoder.cpp:657-720) -/

/-- Encoder-side state: the timestamp counter `pts` (the file-scope
`static int64_t pts` of transcoder.cpp:35) and the number of packets the
encoder will still deliver during a null-frame flush. -/
structure EncState where
  pts : Int
  pending : Nat
deriving DecidableEq, Repr

/-- Observable events of one pipeline run, in order: a frame submitted to the
encoder (with the `pts` stamped on it and its `nb_samples`), a null-frame
flush call (with its `dataPresent` outcome), and the trailer write. -/
inductive Event
  | encFrame (pts : Int) (nbSamples : Nat)
  | encFlush (dataPresent : Bool)
  | trailer
deriving DecidableEq, Repr

/-- Result of one `Transcoder::encodeAudioFrame` call: the observable event,
the `dataPresent` out-parameter, and the successor encoder state. -/
structure EncodeStep where
  event : Event
  dataPresent : Bool
  enc : EncState
deriving DecidableEq, Repr

/-- Model of `Transcoder::encodeAudioFrame`.  For a non-null frame of `n` samples the
frame is stamped with the current `pts` and `pts` advances by `n`
(transcoder.cpp:671-674); a null frame (flush) leaves `pts` untouched and
reports data exactly while the encoder still holds pending packets. -/
def encodeAudioFrame (frame : Option Nat) (e : EncState) : EncodeStep :=
  match frame with
  | some n => ⟨.encFrame e.pts n, true, ⟨e.pts + (n : Int), e.pending⟩⟩
  | none =>
    match e.pending with
    | 0 => ⟨.encFlush false, false, e⟩
    | p + 1 => ⟨.encFlush true, true, ⟨e.pts, p⟩⟩

/-- Model of `Transcoder::loadEncodeAndWrite` (transcoder.cpp:730-763): take
`frame_size = FFMIN(av_audio_fifo_size(fifo), outputCodecContext->frame_size)`
samples out of the FIFO (lines 739-740, 749) and submit them as one frame. -/
def loadEncodeAndWrite (fifo fs : Nat) (e : EncState) : Event × Nat × EncState :=
  let frameSize := min fifo fs
  let st := encodeAudioFrame (some frameSize) e
  (st.event, fifo - frameSize, st.enc)

/- ## FILLING loop (transcoder.cpp:822-835) -/

/-- State threaded through the FILLING loop: decoder, FIFO sample count, and
the two ghost totals. -/
structure FillState where
  dec : DecoderState
  fifo : Nat
  decoded : Nat
  stored : Nat
deriving DecidableEq, Repr

/-- The inner `while (av_audio_fifo_size(fifo) < output_frame_size)` loop of
`Transcoder::processInput` (transcoder.cpp:822-835): call
`readDecodeConvertAndStore` until the FIFO holds one encoder frame or the
input is finished.  Fuel-indexed; `none` means the fuel ran out. -/
def filling : Nat → Nat → FillState → Option (FillState × Bool)
  | 0, _, _ => none
  | fuel + 1, fs, s =>
    if s.fifo < fs then
      let r := readDecodeConvertAndStore s.dec
      let s' : FillState := ⟨r.dec, s.fifo + r.fifoAdd, s.decoded + r.decodedAdd,
        s.stored + r.fifoAdd⟩
      if r.finished then some (s', true)
      else filling fuel fs s'
    else
      some (s, false)

/- ## DRAINING loop (transcoder.cpp:840-846) -/

/-- The `while (av_audio_fifo_size(fifo) >= output_frame_size || (finished &&
av_audio_fifo_size(fifo) > 0))` loop of `Transcoder::processInput`
(transcoder.cpp:840-846): repeated `loadEncodeAndWrite`.  Returns the emitted
events, the remaining FIFO size, and the encoder state. -/
def draining : Nat → Nat → Bool → Nat → EncState →
    Option (List Event × Nat × EncState)
  | 0, fs, finished, fifo, e =>
    if fs ≤ fifo ∨ (finished = true ∧ 0 < fifo) then none
    else some ([], fifo, e)
  | fuel + 1, fs, finished, fifo, e =>
    if fs ≤ fifo ∨ (finished = true ∧ 0 < fifo) then
      let (ev, fifo', e') := loadEncodeAndWrite fifo fs e
      match draining fuel fs finished fifo' e' with
      | none => none
      | some (evs, fifo'', e'') => some (ev :: evs, fifo'', e'')
    else
      some ([], fifo, e)

/- ## FLUSHING loop (transcoder.cpp:850-860) -/

/-- The `do { encodeAudioFrame(nullptr, ...) } while (data_written)` loop of
`Transcoder::processInput` (transcoder.cpp:853-858): at least one null-frame
encode call, repeated while the previous call reported data. -/
def flushing : Nat → EncState → Option (List Event × EncState)
  | 0, _ => none
  | fuel + 1, e =>
    let st := encodeAudioFrame none e
    if st.dataPresent then
      match flushing fuel st.enc with
      | none => none
      | some (evs, e') => some (st.event :: evs, e')
    else
      some ([st.event], st.enc)

/- ## Pipeline driver (transcoder.cpp:781-884) -/

/-- State of `Transcoder::processInput` at the top of the outer `while (1)`
loop. -/
structure DriverState where
  dec : DecoderState
  fifo : Nat
  decoded : Nat
  stored : Nat
  enc : EncState
deriving DecidableEq, Repr

/-- Result of a completed pipeline run: the event trace, the FIFO size when
the encoder flush begins, the ghost totals, and the final encoder state. -/
structure DriverResult where
  events : List Event
  fifoAtFlush : Nat
  decoded : Nat
  stored : Nat
  enc : EncState
deriving DecidableEq, Repr

/-- The outer `while (1)` loop of `Transcoder::processInput`
(transcoder.cpp:812-865): FILLING, then DRAINING, then — once `finished` is
observed — the encoder flush and the trailer write (line 864).  Each inner
loop receives fuel that is separately proved sufficient. -/
def driverLoop : Nat → Nat → DriverState → Option DriverResult
  | 0, _, _ => none
  | fuel + 1, fs, s =>
    match filling (s.dec.packets.length + 1) fs ⟨s.dec, s.fifo, s.decoded, s.stored⟩ with
    | none => none
    | some (f, finished) =>
      match draining f.fifo fs finished f.fifo s.enc with
      | none => none
      | some (devs, fifo', e') =>
        if finished then
          match flushing (e'.pending + 1) e' with
          | none => none
          | some (fevs, e'') =>
            some ⟨devs ++ fevs ++ [.trailer], fifo', f.decoded, f.stored, e''⟩
        else
          match driverLoop fuel fs ⟨f.dec, fifo', f.decoded, f.stored, e'⟩ with
          | none => none
          | some r => some ⟨devs ++ r.events, r.fifoAtFlush, r.decoded, r.stored, r.enc⟩

/-- A complete pipeline run as `Transcoder::processInput` starts it: empty
FIFO, `pts = 0` (the static initializer at transcoder.cpp:35, first run in
the process), encoder frame size `fs`, and an encoder that will deliver
`pending` packets during the final flush. -/
def runTranscode (fs : Nat) (dec : DecoderState) (pending : Nat) : Option DriverResult :=
  driverLoop (dec.packets.length + 1) fs ⟨dec, 0, 0, 0, ⟨0, pending⟩⟩

/- ## Trace helpers -/

/-- The frames submitted to the encoder in a trace: `(pts, nb_samples)`
pairs, in submission order. -/
def framesOf (evs : List Event) : List (Int × Nat) :=
  evs.filterMap fun ev =>
    match ev with
    | .encFrame p n => some (p, n)
    | _ => none

/-- Total number of samples in a list of submitted frames. -/
def sumN (frames : List (Int × Nat)) : Nat :=
  (frames.map Prod.snd).sum

/-- The `pts` discipline of transcoder.cpp:671-674 relative to a starting
counter value `p`: the first submitted frame carries `p`, and each following
frame carries the previous frame's `pts` plus its `nb_samples`. -/
inductive PtsOk : Int → List (Int × Nat) → Prop
  | nil (p : Int) : PtsOk p []
  | cons (p : Int) (n : Nat) (l : List (Int × Nat)) :
      PtsOk (p + (n : Int)) l → PtsOk p ((p, n) :: l)

/-- Every element of the list except possibly the last equals `fs`. -/
def AllButLastEq (fs : Nat) (l : List Nat) : Prop :=
  ∀ i (h : i + 1 < l.length), l.get ⟨i, Nat.lt_of_succ_lt h⟩ = fs

/- ## Two pipeline runs in one process (transcoder.cpp:35) -/

/-- Two sequential pipeline runs inside one process.  The timestamp counter
is the file-scope `static int64_t pts = 0` (transcoder.cpp:35): it is
initialized once per process, so the second run starts from the `pts` value
the first run accumulated, not from 0. -/
def processTwoRuns (fs : Nat) (d1 d2 : DecoderState) (p1 p2 : Nat) :
    Option (DriverResult × DriverResult) :=
  match runTranscode fs d1 p1 with
  | none => none
  | some r1 =>
    match driverLoop (d2.packets.length + 1) fs ⟨d2, 0, 0, 0, ⟨r1.enc.pts, p2⟩⟩ with
    | none => none
    | some r2 => some (r1, r2)

/- ## openInputFile (transcoder.cpp:56-125) -/

/-- The libav error code `AVERROR_EXIT`. -/
def AVERROR_EXIT : Int := -1414092869

/-- The libav out-of-memory error code, `AVERROR(ENOMEM)`. -/
def AVERROR_ENOMEM : Int := -12

/-- Description of an input file as `Transcoder::openInputFile` observes it:
the return values of the fallible libav calls, the stream count, whether the
single stream is an audio stream (never inspected by the code), and whether
`avcodec_find_decoder` locates a decoder for the stream's codec id. -/
structure InputFileDesc where
  /-- Return value of `avformat_open_input` (negative on failure). -/
  openRet : Int
  /-- Return value of `avformat_find_stream_info` (negative on failure). -/
  streamInfoRet : Int
  /-- The stream count `(*inputFormatContext)->nb_streams`. -/
  nbStreams : Nat
  /-- Whether stream 0 is an audio stream (`AVMEDIA_TYPE_AUDIO`). -/
  streamIsAudio : Bool
  /-- Whether `avcodec_find_decoder` returns non-null for the stream. -/
  decoderFound : Bool
  /-- Whether `avcodec_alloc_context3` succeeds. -/
  allocCtxOk : Bool
  /-- Return value of `avcodec_parameters_to_context`. -/
  paramsRet : Int
  /-- Return value of `avcodec_open2` on the decoder. -/
  codecOpenRet : Int
deriving DecidableEq, Repr

/-- Outcome of `Transcoder::openInputFile`: the returned error code and
whether `*inputFormatContext` is left open (non-null). -/
structure OpenInputResult where
  ret : Int
  inputOpen : Bool
deriving DecidableEq, Repr

/-- Model of `Transcoder::openInputFile` (transcoder.cpp:56-125), branch for branch:
open the file (line 65), read stream info (line 74), require exactly one
stream (line 82) — `AVERROR_EXIT` otherwise — find a decoder for the
stream's codec id (line 90) — `AVERROR_EXIT` otherwise — allocate and fill a
codec context (lines 97-110) and open the decoder (line 113).  Every failure
after the open closes the input.  The stream's media type is never
inspected. -/
def openInputFile (f : InputFileDesc) : OpenInputResult :=
  if f.openRet < 0 then ⟨f.openRet, false⟩
  else if f.streamInfoRet < 0 then ⟨f.streamInfoRet, false⟩
  else if f.nbStreams ≠ 1 then ⟨AVERROR_EXIT, false⟩
  else if f.decoderFound = false then ⟨AVERROR_EXIT, false⟩
  else if f.allocCtxOk = false then ⟨AVERROR_ENOMEM, false⟩
  else if f.paramsRet < 0 then ⟨f.paramsRet, false⟩
  else if f.codecOpenRet < 0 then ⟨f.codecOpenRet, false⟩
  else ⟨0, true⟩

/- ## openOutputFile and the resampler assertion (transcoder.cpp:137-242, 281-320) -/

/-- The fixed output channel count `OUTPUT_CHANNELS` (transcoder.h:51). -/
def OUTPUT_CHANNELS : Nat := 2

/-- The fixed output bit rate `OUTPUT_BIT_RATE` (transcoder.h:49). -/
def OUTPUT_BIT_RATE : Int := 96000

/-- The input decoder context fields `Transcoder::openOutputFile` and
`Transcoder::initResampler` read. -/
structure InCodecCtx where
  sampleRate : Int
  sampleFmt : Nat
  channels : Nat
deriving DecidableEq, Repr

/-- Description of the output-side external calls of
`Transcoder::openOutputFile`. -/
structure OutputOpenDesc where
  /-- Return value of `avio_open`. -/
  avioOpenRet : Int
  /-- Whether `avformat_alloc_context` succeeds. -/
  allocCtxOk : Bool
  /-- Whether `av_guess_format` finds a container for the file name. -/
  guessFormatOk : Bool
  /-- Whether `av_strdup` succeeds. -/
  strdupOk : Bool
  /-- Whether `avcodec_find_encoder(AV_CODEC_ID_AAC)` returns non-null. -/
  encoderFound : Bool
  /-- Whether `avformat_new_stream` succeeds. -/
  newStreamOk : Bool
  /-- Whether `avcodec_alloc_context3` succeeds. -/
  allocCodecCtxOk : Bool
  /-- The first offered sample format `outputCodec->sample_fmts[0]`. -/
  encSampleFmt0 : Nat
  /-- Whether the container format requires global headers. -/
  globalHeaderNeeded : Bool
  /-- Return value of `avcodec_open2` on the encoder. -/
  codecOpenRet : Int
  /-- Return value of `avcodec_parameters_from_context`. -/
  paramsFromCtxRet : Int
deriving DecidableEq, Repr

/-- The encoder context configured by `Transcoder::openOutputFile`
(transcoder.cpp:200-216). -/
structure OutCodecCtx where
  channels : Nat
  sampleRate : Int
  sampleFmt : Nat
  bitRate : Int
  globalHeader : Bool
deriving DecidableEq, Repr

/-- Model of `Transcoder::openOutputFile` (transcoder.cpp:137-242): on every
successful path the encoder context is configured with
`avctx->sample_rate = inputCodecContext->sample_rate` (line 202), 2
channels, the encoder's first sample format and the fixed bit rate
(lines 200-204).  `none` stands for any of the failure paths. -/
def openOutputFile (inCtx : InCodecCtx) (d : OutputOpenDesc) : Option OutCodecCtx :=
  if d.avioOpenRet < 0 then none
  else if d.allocCtxOk = false then none
  else if d.guessFormatOk = false then none
  else if d.strdupOk = false then none
  else if d.encoderFound = false then none
  else if d.newStreamOk = false then none
  else if d.allocCodecCtxOk = false then none
  else
    let avctx : OutCodecCtx :=
      ⟨OUTPUT_CHANNELS, inCtx.sampleRate, d.encSampleFmt0, OUTPUT_BIT_RATE,
        d.globalHeaderNeeded⟩
    if d.codecOpenRet < 0 then none
    else if d.paramsFromCtxRet < 0 then none
    else some avctx

/-- The condition of the `av_assert0` in `Transcoder::initResampler`
(transcoder.cpp:311): the output sample rate must equal the input sample
rate. -/
def resamplerRateAssert (inCtx : InCodecCtx) (outCtx : OutCodecCtx) : Bool :=
  outCtx.sampleRate == inCtx.sampleRate

/- ## Resource trace of readDecodeConvertAndStore (transcoder.cpp:556-601) -/

/-- The transient resources of one `readDecodeConvertAndStore` iteration. -/
inductive RdcasRes
  /-- The input frame from `av_frame_alloc` (line 563 via `initInputFrame`). -/
  | inputFrame
  /-- The per-channel pointer array from `calloc` (line 450 via
  `initConvertedSamples`). -/
  | samplePtrArray
  /-- The contiguous sample block from `av_samples_alloc` (line 458 via
  `initConvertedSamples`). -/
  | sampleDataBlock
deriving DecidableEq, Repr

/-- Resources acquired by one successful `readDecodeConvertAndStore`
iteration (transcoder.cpp:562-592), given whether decoded data was present:
the input frame always, and — when data is present — the converted-sample
pointer array and its contiguous data block. -/
def rdcasAcquires (dataPresent : Bool) : List RdcasRes :=
  .inputFrame :: (if dataPresent then [.samplePtrArray, .sampleDataBlock] else [])

/-- Resources released by the `cleanup` block of
`readDecodeConvertAndStore` (transcoder.cpp:596-601): `free` of the pointer
array and `av_frame_free` of the input frame.  The `av_freep` of the sample
data block (line 598) is commented out in the source. -/
def rdcasReleases (dataPresent : Bool) : List RdcasRes :=
  (if dataPresent then [.samplePtrArray] else []) ++ [.inputFrame]

/- ## Process exit behavior (transcoder.cpp:37-47, main.cpp:3-14) -/

/-- How the process ends after the pipeline ran. -/
inductive ProcessExit
  /-- The process called `exit(c)`. -/
  | explicitCode (c : Int)
  /-- Control fell through and `main` returned `c`. -/
  | returnFromMain (c : Int)
deriving DecidableEq, Repr

/-- The `Transcoder` constructor (transcoder.cpp:37-47): it runs
`processInput` and calls `exit(0)` when the result is 0; on a nonzero
result it simply returns.  The value is the argument of the `exit` call,
if one happens. -/
def transcoderConstructor (processResult : Int) : Option Int :=
  if processResult = 0 then some 0 else none

/-- Model of `main` (main.cpp:3-14) with two file arguments: construct the
`Transcoder`; if the constructor did not call `exit`, fall through to
`return 0` (main.cpp:13). -/
def mainRun (processResult : Int) : ProcessExit :=
  match transcoderConstructor processResult with
  | some c => .explicitCode c
  | none => .returnFromMain 0

/-- The exit status the operating system observes. -/
def exitStatus : ProcessExit → Int
  | .explicitCode c => c
  | .returnFromMain c => c

/- ## Helper lemmas on traces -/

theorem framesOf_nil : framesOf [] = [] := rfl

theorem framesOf_cons_encFrame (p : Int) (n : Nat) (evs : List Event) :
    framesOf (Event.encFrame p n :: evs) = (p, n) :: framesOf evs := rfl

theorem framesOf_cons_encFlush (b : Bool) (evs : List Event) :
    framesOf (Event.encFlush b :: evs) = framesOf evs := rfl

theorem framesOf_cons_trailer (evs : List Event) :
    framesOf (Event.trailer :: evs) = framesOf evs := rfl

theorem framesOf_append (l1 l2 : List Event) :
    framesOf (l1 ++ l2) = framesOf l1 ++ framesOf l2 := by
  simp [framesOf, List.filterMap_append]

theorem framesOf_replicate_encFlush (k : Nat) (b : Bool) :
    framesOf (List.replicate k (Event.encFlush b)) = [] := by
  induction k with
  | zero => rfl
  | succ j ih => rw [List.replicate_succ, framesOf_cons_encFlush]; exact ih

theorem sumN_nil : sumN [] = 0 := rfl

theorem sumN_cons (p : Int) (n : Nat) (l : List (Int × Nat)) :
    sumN ((p, n) :: l) = n + sumN l := by
  simp [sumN]

theorem sumN_append (l1 l2 : List (Int × Nat)) :
    sumN (l1 ++ l2) = sumN l1 + sumN l2 := by
  simp [sumN]

theorem PtsOk.append : ∀ {p : Int} {l1 : List (Int × Nat)}, PtsOk p l1 →
    ∀ {l2 : List (Int × Nat)}, PtsOk (p + (sumN l1 : Int)) l2 → PtsOk p (l1 ++ l2) := by
  intro p l1 h1
  induction h1 with
  | nil p =>
    intro l2 h2
    simpa [sumN] using h2
  | cons p n l _ ih =>
    intro l2 h2
    simp only [List.cons_append]
    refine .cons _ _ _ (ih ?_)
    have hc : p + (sumN ((p, n) :: l) : Int) = p + (n : Int) + (sumN l : Int) := by
      rw [sumN_cons]; push_cast; ring
    rwa [hc] at h2

theorem PtsOk.head {p q : Int} {n : Nat} {l : List (Int × Nat)}
    (h : PtsOk p ((q, n) :: l)) : q = p := by
  cases h; rfl

theorem PtsOk.chain {p : Int} {l : List (Int × Nat)} (h : PtsOk p l)
    (hpos : ∀ f ∈ l, 0 < f.2) : l.Chain' (fun a b => a.1 < b.1) := by
  induction h with
  | nil => simp
  | cons p n l h ih =>
    have hl := ih (fun f hf => hpos f (List.mem_cons_of_mem _ hf))
    cases l with
    | nil => simp
    | cons f rest =>
      obtain ⟨q, m⟩ := f
      have hq : q = p + (n : Int) := h.head
      have hn : 0 < n := hpos (p, n) (by simp)
      rw [List.chain'_cons]
      exact ⟨by rw [hq]; omega, hl⟩

theorem allButLastEq_nil (fs : Nat) : AllButLastEq fs [] := by
  intro i h
  simp at h

theorem allButLastEq_single (fs x : Nat) : AllButLastEq fs [x] := by
  intro i h
  simp at h

theorem allButLastEq_cons (fs : Nat) {l : List Nat} (h : AllButLastEq fs l) :
    AllButLastEq fs (fs :: l) := by
  intro i hi
  cases i with
  | zero => rfl
  | succ j =>
    have hj : j + 1 < l.length := by simpa using hi
    simpa using h j hj

theorem allButLastEq_append (fs : Nat) {l1 l2 : List Nat}
    (h1 : ∀ x ∈ l1, x = fs) (h2 : AllButLastEq fs l2) : AllButLastEq fs (l1 ++ l2) := by
  induction l1 with
  | nil => simpa using h2
  | cons x l ih =>
    have hx : x = fs := h1 x (by simp)
    rw [List.cons_append, hx]
    exact allButLastEq_cons fs (ih fun y hy => h1 y (List.mem_cons_of_mem _ hy))

/- ## FLUSHING lemmas -/

/-- A null-frame (flush) encode call never changes `pts`
(transcoder.cpp:671-674 only runs for a non-null frame). -/
theorem encodeAudioFrame_none_pts (e : EncState) :
    (encodeAudioFrame none e).enc.pts = e.pts := by
  obtain ⟨pts, pending⟩ := e
  cases pending <;> rfl

theorem flushing_succ (fuel : Nat) (e : EncState) :
    flushing (fuel + 1) e =
      (let st := encodeAudioFrame none e
       if st.dataPresent then
         match flushing fuel st.enc with
         | none => none
         | some (evs, e') => some (st.event :: evs, e')
       else some ([st.event], st.enc)) := rfl

/-- Running the flush loop with fuel `pending + 1` terminates and yields
exactly `pending` data-producing flush calls followed by the one call that
reports no data; `pts` is unchanged. -/
theorem flushing_spec : ∀ (p : Nat) (e : EncState), e.pending = p →
    flushing (p + 1) e =
      some (List.replicate p (Event.encFlush true) ++ [Event.encFlush false],
        ⟨e.pts, 0⟩) := by
  intro p
  induction p with
  | zero =>
    intro e he
    obtain ⟨pts, pending⟩ := e
    simp only at he
    subst he
    rfl
  | succ q ih =>
    intro e he
    obtain ⟨pts, pending⟩ := e
    simp only at he
    subst he
    have hq := ih ⟨pts, q⟩ rfl
    rw [flushing_succ]
    simp only [encodeAudioFrame]
    rw [hq]
    simp [List.replicate_succ]

/- ## FILLING lemmas -/

theorem rdcas_packets_le (d : DecoderState) :
    (readDecodeConvertAndStore d).dec.packets.length ≤ d.packets.length := by
  obtain ⟨ps, del⟩ := d
  cases ps with
  | nil => cases del <;> simp [readDecodeConvertAndStore, decodeAudioFrame]
  | cons o rest => cases o <;> simp [readDecodeConvertAndStore, decodeAudioFrame]

theorem rdcas_packets_lt (d : DecoderState)
    (h : (readDecodeConvertAndStore d).finished = false) :
    (readDecodeConvertAndStore d).dec.packets.length < d.packets.length := by
  obtain ⟨ps, del⟩ := d
  cases ps with
  | nil => cases del <;> simp [readDecodeConvertAndStore, decodeAudioFrame] at h
  | cons o rest => cases o <;> simp [readDecodeConvertAndStore, decodeAudioFrame]

/-- The FILLING loop terminates within `packets.length + 1` iterations: each
iteration either consumes one compressed packet or observes end of file. -/
theorem filling_isSome : ∀ (fuel fs : Nat) (s : FillState),
    s.dec.packets.length < fuel → (filling fuel fs s).isSome := by
  intro fuel
  induction fuel with
  | zero => intro fs s h; omega
  | succ fuel ih =>
    intro fs s h
    by_cases hlt : s.fifo < fs
    · simp only [filling, if_pos hlt]
      by_cases hfin : (readDecodeConvertAndStore s.dec).finished
      · simp [hfin]
      · simp only [hfin, Bool.false_eq_true, if_false]
        refine ih fs _ ?_
        have := rdcas_packets_lt s.dec (by simpa using hfin)
        simp only
        omega
    · simp [filling, if_neg hlt]

theorem filling_packets_le : ∀ (fuel fs : Nat) (s : FillState) (f : FillState) (b : Bool),
    filling fuel fs s = some (f, b) → f.dec.packets.length ≤ s.dec.packets.length := by
  intro fuel
  induction fuel with
  | zero => intro fs s f b h; simp [filling] at h
  | succ fuel ih =>
    intro fs s f b h
    by_cases hlt : s.fifo < fs
    · simp only [filling, if_pos hlt] at h
      by_cases hfin : (readDecodeConvertAndStore s.dec).finished
      · simp only [hfin, if_true, Option.some.injEq, Prod.mk.injEq] at h
        have hle := rdcas_packets_le s.dec
        rw [← h.1]
        exact hle
      · simp only [hfin, Bool.false_eq_true, if_false] at h
        have h1 := ih fs _ f b h
        have h2 := rdcas_packets_le s.dec
        simp only at h1
        omega
    · simp only [filling, if_neg hlt, Option.some.injEq, Prod.mk.injEq] at h
      rw [← h.1]

/-- If the FILLING loop ran (the FIFO was below one encoder frame) and did
not observe end of file, it consumed at least one compressed packet. -/
theorem filling_packets_lt : ∀ (fuel fs : Nat) (s : FillState) (f : FillState),
    filling fuel fs s = some (f, false) → s.fifo < fs →
    f.dec.packets.length < s.dec.packets.length := by
  intro fuel fs s f h hlt
  cases fuel with
  | zero => simp [filling] at h
  | succ fuel =>
    simp only [filling, if_pos hlt] at h
    by_cases hfin : (readDecodeConvertAndStore s.dec).finished
    · simp [hfin] at h
    · simp only [hfin, Bool.false_eq_true, if_false] at h
      have h1 := filling_packets_le fuel fs _ f false h
      have h2 := rdcas_packets_lt s.dec (by simpa using hfin)
      simp only at h1
      omega

/- ## DRAINING lemmas -/

theorem draining_zero (fs : Nat) (fin : Bool) (fifo : Nat) (e : EncState) :
    draining 0 fs fin fifo e =
      (if fs ≤ fifo ∨ (fin = true ∧ 0 < fifo) then none else some ([], fifo, e)) := rfl

theorem draining_succ (fuel fs : Nat) (fin : Bool) (fifo : Nat) (e : EncState) :
    draining (fuel + 1) fs fin fifo e =
      (if fs ≤ fifo ∨ (fin = true ∧ 0 < fifo) then
        match draining fuel fs fin (fifo - min fifo fs)
            ⟨e.pts + ((min fifo fs : Nat) : Int), e.pending⟩ with
        | none => none
        | some (evs, fifo'', e'') =>
          some (Event.encFrame e.pts (min fifo fs) :: evs, fifo'', e'')
      else some ([], fifo, e)) := rfl

/-- When the guard of the DRAINING loop is false, the loop exits at once. -/
theorem draining_guard_false (fuel fs : Nat) (fin : Bool) (fifo : Nat) (e : EncState)
    (hg : ¬(fs ≤ fifo ∨ (fin = true ∧ 0 < fifo))) :
    draining fuel fs fin fifo e = some ([], fifo, e) := by
  cases fuel with
  | zero => rw [draining_zero, if_neg hg]
  | succ fuel => rw [draining_succ, if_neg hg]

/-- Invariants of the DRAINING loop: the submitted frames follow the `pts`
discipline starting from the entry counter; `pts` advances by the total
sample count; the encoder's pending count is untouched; the FIFO samples are
conserved into the submitted frames; the loop exits with less than one
encoder frame in the FIFO (and an empty FIFO when `finished`); only frame
submissions are emitted; without `finished` every frame is full; at most the
last frame is short; and every frame is nonempty and at most one encoder
frame. -/
theorem draining_spec : ∀ (fuel fs : Nat) (fin : Bool) (fifo : Nat) (e : EncState)
    (evs : List Event) (fifo' : Nat) (e' : EncState),
    draining fuel fs fin fifo e = some (evs, fifo', e') →
    PtsOk e.pts (framesOf evs) ∧
    e'.pts = e.pts + (sumN (framesOf evs) : Int) ∧
    e'.pending = e.pending ∧
    fifo = sumN (framesOf evs) + fifo' ∧
    fifo' < fs ∧
    (fin = true → fifo' = 0) ∧
    (∀ ev ∈ evs, ∃ p n, ev = Event.encFrame p n) ∧
    (fin = false → ∀ f ∈ framesOf evs, f.2 = fs) ∧
    AllButLastEq fs ((framesOf evs).map Prod.snd) ∧
    (0 < fs → ∀ f ∈ framesOf evs, 0 < f.2 ∧ f.2 ≤ fs) := by
  intro fuel
  induction fuel with
  | zero =>
    intro fs fin fifo e evs fifo' e' h
    rw [draining_zero] at h
    by_cases hg : fs ≤ fifo ∨ (fin = true ∧ 0 < fifo)
    · rw [if_pos hg] at h
      exact absurd h (by simp)
    · rw [if_neg hg] at h
      obtain ⟨h1, h2, h3⟩ : ([] : List Event) = evs ∧ fifo = fifo' ∧ e = e' := by
        simpa [Prod.ext_iff] using h
      subst h1; subst h2; subst h3
      push_neg at hg
      refine ⟨.nil _, by simp [framesOf, sumN], rfl, by simp [framesOf, sumN], by omega,
        ?_, by simp, by simp [framesOf], by simpa [framesOf] using allButLastEq_nil fs,
        by simp [framesOf]⟩
      intro hfin
      have := hg.2 hfin
      omega
  | succ fuel ih =>
    intro fs fin fifo e evs fifo' e' h
    rw [draining_succ] at h
    by_cases hg : fs ≤ fifo ∨ (fin = true ∧ 0 < fifo)
    · rw [if_pos hg] at h
      cases hrec : draining fuel fs fin (fifo - min fifo fs)
          ⟨e.pts + ((min fifo fs : Nat) : Int), e.pending⟩ with
      | none =>
        rw [hrec] at h
        exact absurd h (by simp)
      | some trip =>
        obtain ⟨evs₂, fifo₂, e₂⟩ := trip
        rw [hrec] at h
        obtain ⟨h1, h2, h3⟩ :
            Event.encFrame e.pts (min fifo fs) :: evs₂ = evs ∧ fifo₂ = fifo' ∧ e₂ = e' := by
          simpa [Prod.ext_iff] using h
        subst h1; subst h2; subst h3
        obtain ⟨IH1, IH2, IH3, IH4, IH5, IH6, IH7, IH8, IH9, IH10⟩ := ih _ _ _ _ _ _ _ hrec
        have hnfifo : min fifo fs ≤ fifo := Nat.min_le_left _ _
        have hnfs : min fifo fs ≤ fs := Nat.min_le_right _ _
        have hfr : framesOf (Event.encFrame e.pts (min fifo fs) :: evs₂) =
            (e.pts, min fifo fs) :: framesOf evs₂ := rfl
        have hnpos : 0 < fs → 0 < min fifo fs := by
          intro hfs
          rcases hg with hge | ⟨_, hpos⟩
          · exact lt_min_iff.mpr ⟨by omega, hfs⟩
          · exact lt_min_iff.mpr ⟨hpos, hfs⟩
        refine ⟨?_, ?_, ?_, ?_, IH5, IH6, ?_, ?_, ?_, ?_⟩
        · rw [hfr]
          exact PtsOk.cons _ _ _ IH1
        · rw [hfr, sumN_cons]
          simp only at IH2
          push_cast at IH2 ⊢
          omega
        · exact IH3
        · rw [hfr, sumN_cons]
          omega
        · intro ev hev
          rcases List.mem_cons.mp hev with hev | hev
          · exact ⟨e.pts, min fifo fs, hev⟩
          · exact IH7 ev hev
        · intro hfin f hf
          rw [hfr] at hf
          rcases List.mem_cons.mp hf with hf | hf
          · have hge : fs ≤ fifo := by
              rcases hg with hge | ⟨hc, _⟩
              · exact hge
              · rw [hfin] at hc; cases hc
            rw [hf]
            simp [Nat.min_eq_right hge]
          · exact IH8 hfin f hf
        · rw [hfr]
          by_cases hlt : min fifo fs < fs
          · have hflt : fifo < fs := by
              rcases Nat.lt_or_ge fifo fs with hc | hc
              · exact hc
              · rw [Nat.min_eq_right hc] at hlt; omega
            have hn : min fifo fs = fifo := Nat.min_eq_left (by omega)
            have hzero : fifo - min fifo fs = 0 := by omega
            have hfs1 : 0 < fs := by omega
            have hg2 : ¬(fs ≤ fifo - min fifo fs ∨ (fin = true ∧ 0 < fifo - min fifo fs)) := by
              rw [hzero]
              push_neg
              exact ⟨by omega, fun _ => by omega⟩
            have := draining_guard_false fuel fs fin (fifo - min fifo fs)
              ⟨e.pts + ((min fifo fs : Nat) : Int), e.pending⟩ hg2
            rw [this] at hrec
            obtain ⟨hevs, _, _⟩ : ([] : List Event) = evs₂ ∧ _ ∧ _ := by
              simpa [Prod.ext_iff] using hrec
            rw [← hevs]
            simpa [framesOf] using allButLastEq_single fs (min fifo fs)
          · have hn : min fifo fs = fs := by omega
            rw [hn]
            simpa using allButLastEq_cons fs IH9
        · intro hfs f hf
          rw [hfr] at hf
          rcases List.mem_cons.mp hf with hf | hf
          · rw [hf]
            exact ⟨hnpos hfs, hnfs⟩
          · exact IH10 hfs f hf
    · rw [if_neg hg] at h
      obtain ⟨h1, h2, h3⟩ : ([] : List Event) = evs ∧ fifo = fifo' ∧ e = e' := by
        simpa [Prod.ext_iff] using h
      subst h1; subst h2; subst h3
      push_neg at hg
      refine ⟨.nil _, by simp [framesOf, sumN], rfl, by simp [framesOf, sumN], by omega,
        ?_, by simp, by simp [framesOf], by simpa [framesOf] using allButLastEq_nil fs,
        by simp [framesOf]⟩
      intro hfin
      have := hg.2 hfin
      omega

/-- With a positive encoder frame size the DRAINING loop terminates within
`fifo` iterations: each iteration removes at least one sample. -/
theorem draining_isSome : ∀ (fuel fs : Nat) (fin : Bool) (fifo : Nat) (e : EncState),
    0 < fs → fifo ≤ fuel → (draining fuel fs fin fifo e).isSome := by
  intro fuel
  induction fuel with
  | zero =>
    intro fs fin fifo e hfs hle
    have hz : fifo = 0 := by omega
    subst hz
    have hg : ¬(fs ≤ 0 ∨ (fin = true ∧ 0 < 0)) := by
      push_neg
      exact ⟨by omega, fun _ => by omega⟩
    rw [draining_guard_false _ _ _ _ _ hg]
    rfl
  | succ fuel ih =>
    intro fs fin fifo e hfs hle
    by_cases hg : fs ≤ fifo ∨ (fin = true ∧ 0 < fifo)
    · rw [draining_succ, if_pos hg]
      have hn : 0 < min fifo fs := by
        rcases hg with hge | ⟨_, hpos⟩
        · exact lt_min_iff.mpr ⟨by omega, hfs⟩
        · exact lt_min_iff.mpr ⟨hpos, hfs⟩
      have hrec := ih fs fin (fifo - min fifo fs)
        ⟨e.pts + ((min fifo fs : Nat) : Int), e.pending⟩ hfs (by omega)
      cases hd : draining fuel fs fin (fifo - min fifo fs)
          ⟨e.pts + ((min fifo fs : Nat) : Int), e.pending⟩ with
      | none => rw [hd] at hrec; simp at hrec
      | some trip =>
        obtain ⟨evs, fifo'', e''⟩ := trip
        rfl
    · rw [draining_guard_false _ _ _ _ _ hg]
      rfl

/- ## Pipeline driver lemmas -/

theorem driverLoop_succ (fuel fs : Nat) (s : DriverState) :
    driverLoop (fuel + 1) fs s =
      (match filling (s.dec.packets.length + 1) fs ⟨s.dec, s.fifo, s.decoded, s.stored⟩ with
      | none => none
      | some (f, finished) =>
        match draining f.fifo fs finished f.fifo s.enc with
        | none => none
        | some (devs, fifo', e') =>
          if finished then
            match flushing (e'.pending + 1) e' with
            | none => none
            | some (fevs, e'') =>
              some ⟨devs ++ fevs ++ [.trailer], fifo', f.decoded, f.stored, e''⟩
          else
            match driverLoop fuel fs ⟨f.dec, fifo', f.decoded, f.stored, e'⟩ with
            | none => none
            | some r =>
              some ⟨devs ++ r.events, r.fifoAtFlush, r.decoded, r.stored, r.enc⟩) := rfl

/-- Invariants of a completed pipeline run: the submitted frames obey the
`pts` discipline from the entry counter; the final counter is the entry
counter plus the total sample count submitted; the trace is frame
submissions, then data-producing flush calls, then the flush call that
reports no data, then the trailer; the FIFO is empty when the flush starts;
and (for a positive encoder frame size) every submitted frame is nonempty,
at most one encoder frame, and only the last may be short. -/
theorem driverLoop_spec : ∀ (fuel fs : Nat) (s : DriverState) (r : DriverResult),
    driverLoop fuel fs s = some r →
    PtsOk s.enc.pts (framesOf r.events) ∧
    r.enc.pts = s.enc.pts + (sumN (framesOf r.events) : Int) ∧
    (∃ evs k, r.events = evs ++ List.replicate k (Event.encFlush true) ++
        [Event.encFlush false, Event.trailer] ∧
      ∀ ev ∈ evs, ∃ p n, ev = Event.encFrame p n) ∧
    r.fifoAtFlush = 0 ∧
    (0 < fs → (∀ f ∈ framesOf r.events, 0 < f.2 ∧ f.2 ≤ fs) ∧
      AllButLastEq fs ((framesOf r.events).map Prod.snd)) := by
  intro fuel
  induction fuel with
  | zero =>
    intro fs s r h
    simp [driverLoop] at h
  | succ fuel ih =>
    intro fs s r h
    rw [driverLoop_succ] at h
    cases hf : filling (s.dec.packets.length + 1) fs ⟨s.dec, s.fifo, s.decoded, s.stored⟩ with
    | none =>
      simp only [hf] at h
      exact absurd h (by simp)
    | some fp =>
      obtain ⟨f, fin⟩ := fp
      simp only [hf] at h
      cases hd : draining f.fifo fs fin f.fifo s.enc with
      | none =>
        simp only [hd] at h
        exact absurd h (by simp)
      | some trip =>
        obtain ⟨devs, fifo', e'⟩ := trip
        simp only [hd] at h
        obtain ⟨D1, D2, D3, D4, D5, D6, D7, D8, D9, D10⟩ := draining_spec _ _ _ _ _ _ _ _ hd
        cases fin with
        | true =>
          rw [if_pos rfl] at h
          simp only [flushing_spec e'.pending e' rfl] at h
          obtain hr : (⟨devs ++ (List.replicate e'.pending (Event.encFlush true) ++
              [Event.encFlush false]) ++ [Event.trailer], fifo', f.decoded, f.stored,
              ⟨e'.pts, 0⟩⟩ : DriverResult) = r := by
            simpa using h
          subst hr
          have hfr : framesOf (devs ++ (List.replicate e'.pending (Event.encFlush true) ++
              [Event.encFlush false]) ++ [Event.trailer]) = framesOf devs := by
            simp [framesOf_append, framesOf_replicate_encFlush, framesOf]
          refine ⟨?_, ?_, ?_, D6 rfl, ?_⟩
          · simp only [hfr]
            exact D1
          · simp only [hfr]
            exact D2
          · refine ⟨devs, e'.pending, by simp, D7⟩
          · intro hfs
            simp only [hfr]
            exact ⟨D10 hfs, D9⟩
        | false =>
          rw [if_neg (by simp)] at h
          cases hrec : driverLoop fuel fs ⟨f.dec, fifo', f.decoded, f.stored, e'⟩ with
          | none =>
            simp only [hrec] at h
            exact absurd h (by simp)
          | some r' =>
            simp only [hrec] at h
            obtain hr : (⟨devs ++ r'.events, r'.fifoAtFlush, r'.decoded, r'.stored,
                r'.enc⟩ : DriverResult) = r := by
              simpa using h
            subst hr
            obtain ⟨I1, I2, I3, I4, I5⟩ := ih fs _ r' hrec
            have hfr : framesOf (devs ++ r'.events) =
                framesOf devs ++ framesOf r'.events := framesOf_append _ _
            refine ⟨?_, ?_, ?_, I4, ?_⟩
            · simp only [hfr]
              refine PtsOk.append D1 ?_
              have he : (⟨f.dec, fifo', f.decoded, f.stored, e'⟩ : DriverState).enc.pts
                  = s.enc.pts + (sumN (framesOf devs) : Int) := D2
              rw [← he]
              exact I1
            · simp only [hfr, sumN_append]
              simp only at I2
              rw [I2, D2]
              push_cast
              ring
            · obtain ⟨evs, k, hevents, hmem⟩ := I3
              refine ⟨devs ++ evs, k, ?_, ?_⟩
              · simp only [hevents]
                simp [List.append_assoc]
              · intro ev hev
                rcases List.mem_append.mp hev with hev | hev
                · exact D7 ev hev
                · exact hmem ev hev
            · intro hfs
              constructor
              · intro g hg
                rw [hfr] at hg
                rcases List.mem_append.mp hg with hg | hg
                · exact D10 hfs g hg
                · exact (I5 hfs).1 g hg
              · rw [hfr, List.map_append]
                refine allButLastEq_append fs ?_ (I5 hfs).2
                intro x hx
                obtain ⟨g, hg, hgx⟩ := List.mem_map.mp hx
                rw [← hgx]
                exact D8 rfl g hg

/-- Termination of the whole driver: starting below one encoder frame in the
FIFO (in particular from the empty FIFO), fuel `packets.length + 1` for the
outer loop always suffices, because every outer iteration that does not
observe end of file consumes at least one compressed packet. -/
theorem driverLoop_isSome : ∀ (fuel fs : Nat) (s : DriverState),
    0 < fs → s.fifo < fs → s.dec.packets.length < fuel →
    (driverLoop fuel fs s).isSome := by
  intro fuel
  induction fuel with
  | zero =>
    intro fs s _ _ h
    omega
  | succ fuel ih =>
    intro fs s hfs hfifo hlen
    rw [driverLoop_succ]
    have hfill := filling_isSome (s.dec.packets.length + 1) fs
      ⟨s.dec, s.fifo, s.decoded, s.stored⟩ (by simp)
    cases hf : filling (s.dec.packets.length + 1) fs ⟨s.dec, s.fifo, s.decoded, s.stored⟩ with
    | none => rw [hf] at hfill; simp at hfill
    | some fp =>
      obtain ⟨f, fin⟩ := fp
      simp only [hf]
      have hdr := draining_isSome f.fifo fs fin f.fifo s.enc hfs (le_refl _)
      cases hd : draining f.fifo fs fin f.fifo s.enc with
      | none => rw [hd] at hdr; simp at hdr
      | some trip =>
        obtain ⟨devs, fifo', e'⟩ := trip
        simp only [hd]
        cases fin with
        | true =>
          rw [if_pos rfl]
          simp only [flushing_spec e'.pending e' rfl]
          rfl
        | false =>
          rw [if_neg (by simp)]
          obtain ⟨_, _, _, _, D5, _⟩ := draining_spec _ _ _ _ _ _ _ _ hd
          have hlt := filling_packets_lt (s.dec.packets.length + 1) fs _ f hf hfifo
          simp only at hlt
          have hr := ih fs ⟨f.dec, fifo', f.decoded, f.stored, e'⟩ hfs D5
            (by simp only; omega)
          cases hrec : driverLoop fuel fs ⟨f.dec, fifo', f.decoded, f.stored, e'⟩ with
          | none => rw [hrec] at hr; simp at hr
          | some r' =>
            simp only [hrec]
            rfl

/- ## Claim theorems -/

/-- C1: the claim states that every decoded sample reaches the FIFO and the
encoder, including delayed frames the decoder emits after end of file.  The
code violates this: `readDecodeConvertAndStore` returns on `*finished`
before checking `dataPresent` (transcoder.cpp:572-575), so a delayed frame
decoded on the end-of-file call is dropped.  On an input whose decoder holds
a delayed 2-sample frame at end of file (packets = [frame 4], delayed = [2],
encoder frame size 3), 6 samples are decoded but only 4 are stored in the
FIFO and 4 submitted to the encoder. -/
theorem c1_delayed_frame_dropped_eval :
    (runTranscode 3 ⟨[.frame 4], [2]⟩ 1).map
      (fun r => (r.decoded, r.stored, sumN (framesOf r.events))) = some (6, 4, 4) ∧
    (6 : Nat) ≠ 4 :=
  ⟨rfl, by decide⟩

/-- C2: in a completed pipeline run started with the process-initial
`pts = 0` and a positive encoder frame size, the `pts` values stamped on the
frames submitted to the encoder start at 0 and each advances by exactly the
previous frame's `nb_samples` (`PtsOk 0`), hence the sequence is strictly
increasing; the final counter equals the total of all submitted
`nb_samples`; and a null (flush) encode call never changes `pts`. -/
theorem c2_pts_discipline (fuel fs : Nat) (s : DriverState) (r : DriverResult)
    (hfs : 0 < fs) (hpts : s.enc.pts = 0) (h : driverLoop fuel fs s = some r) :
    PtsOk 0 (framesOf r.events) ∧
    (framesOf r.events).Chain' (fun a b => a.1 < b.1) ∧
    r.enc.pts = (sumN (framesOf r.events) : Int) ∧
    (∀ e : EncState, (encodeAudioFrame none e).enc.pts = e.pts) := by
  obtain ⟨H1, H2, _, _, H5⟩ := driverLoop_spec fuel fs s r h
  rw [hpts] at H1 H2
  refine ⟨H1, ?_, by simpa using H2, encodeAudioFrame_none_pts⟩
  exact H1.chain fun f hf => ((H5 hfs).1 f hf).1

theorem c2_pts_discipline_witness :
    PtsOk 0 (framesOf [Event.encFrame 0 2, Event.encFrame 2 2, Event.encFlush true,
        Event.encFlush false, Event.trailer]) ∧
    (framesOf [Event.encFrame 0 2, Event.encFrame 2 2, Event.encFlush true,
        Event.encFlush false, Event.trailer]).Chain' (fun a b => a.1 < b.1) ∧
    (⟨[Event.encFrame 0 2, Event.encFrame 2 2, Event.encFlush true, Event.encFlush false,
        Event.trailer], 0, 4, 4, ⟨4, 0⟩⟩ : DriverResult).enc.pts =
      (sumN (framesOf [Event.encFrame 0 2, Event.encFrame 2 2, Event.encFlush true,
        Event.encFlush false, Event.trailer]) : Int) ∧
    (∀ e : EncState, (encodeAudioFrame none e).enc.pts = e.pts) :=
  c2_pts_discipline 2 2 ⟨⟨[.frame 4], []⟩, 0, 0, 0, ⟨0, 1⟩⟩
    ⟨[Event.encFrame 0 2, Event.encFrame 2 2, Event.encFlush true, Event.encFlush false,
      Event.trailer], 0, 4, 4, ⟨4, 0⟩⟩ (by decide) rfl rfl

/-- C4: each frame the DRAINING state submits carries exactly
`min (fifo size) (encoder frame size)` samples (`loadEncodeAndWrite`,
transcoder.cpp:739-740); in a completed run with a positive encoder frame
size every submitted frame is nonempty and at most one encoder frame, and
every submitted frame except possibly the true last one is exactly one full
encoder frame — a short frame can only be the last, produced when `finished`
is set. -/
theorem c4_draining_frame_sizes (fuel fs : Nat) (s : DriverState) (r : DriverResult)
    (hfs : 0 < fs) (h : driverLoop fuel fs s = some r) :
    (∀ (fifo : Nat) (e : EncState),
      (loadEncodeAndWrite fifo fs e).1 = Event.encFrame e.pts (min fifo fs)) ∧
    (∀ f ∈ framesOf r.events, 0 < f.2 ∧ f.2 ≤ fs) ∧
    AllButLastEq fs ((framesOf r.events).map Prod.snd) := by
  obtain ⟨_, _, _, _, H5⟩ := driverLoop_spec fuel fs s r h
  exact ⟨fun fifo e => rfl, (H5 hfs).1, (H5 hfs).2⟩

theorem c4_draining_frame_sizes_witness :
    (∀ (fifo : Nat) (e : EncState),
      (loadEncodeAndWrite fifo 3 e).1 = Event.encFrame e.pts (min fifo 3)) ∧
    (∀ f ∈ framesOf [Event.encFrame 0 3, Event.encFrame 3 1, Event.encFlush false,
        Event.trailer], 0 < f.2 ∧ f.2 ≤ 3) ∧
    AllButLastEq 3 ((framesOf [Event.encFrame 0 3, Event.encFrame 3 1,
        Event.encFlush false, Event.trailer]).map Prod.snd) :=
  c4_draining_frame_sizes 2 3 ⟨⟨[.frame 4], []⟩, 0, 0, 0, ⟨0, 0⟩⟩
    ⟨[Event.encFrame 0 3, Event.encFrame 3 1, Event.encFlush false, Event.trailer],
      0, 4, 4, ⟨4, 0⟩⟩ (by decide) rfl

/-- C5: a completed pipeline run flushes only after the input is finished
and the FIFO is empty (`fifoAtFlush = 0`); the trace is the frame
submissions, then some number of null-frame flush calls that produce data,
then exactly one flush call that reports no data — which ends the flush
loop — and only then the trailer write. -/
theorem c5_flush_then_trailer (fuel fs : Nat) (s : DriverState) (r : DriverResult)
    (h : driverLoop fuel fs s = some r) :
    r.fifoAtFlush = 0 ∧
    ∃ evs k, r.events = evs ++ List.replicate k (Event.encFlush true) ++
        [Event.encFlush false, Event.trailer] ∧
      ∀ ev ∈ evs, ∃ p n, ev = Event.encFrame p n := by
  obtain ⟨_, _, H3, H4, _⟩ := driverLoop_spec fuel fs s r h
  exact ⟨H4, H3⟩

theorem c5_flush_then_trailer_witness :
    (⟨[Event.encFrame 0 2, Event.encFlush true, Event.encFlush true, Event.encFlush false,
        Event.trailer], 0, 2, 2, ⟨2, 0⟩⟩ : DriverResult).fifoAtFlush = 0 ∧
    ∃ evs k, (⟨[Event.encFrame 0 2, Event.encFlush true, Event.encFlush true,
        Event.encFlush false, Event.trailer], 0, 2, 2,
        ⟨2, 0⟩⟩ : DriverResult).events = evs ++
        List.replicate k (Event.encFlush true) ++ [Event.encFlush false, Event.trailer] ∧
      ∀ ev ∈ evs, ∃ p n, ev = Event.encFrame p n :=
  c5_flush_then_trailer 2 2 ⟨⟨[.frame 2], []⟩, 0, 0, 0, ⟨0, 2⟩⟩
    ⟨[Event.encFrame 0 2, Event.encFlush true, Event.encFlush true, Event.encFlush false,
      Event.trailer], 0, 2, 2, ⟨2, 0⟩⟩ rfl

/-- C10: for every finite input and positive encoder frame size the driver's
main loop terminates: outer fuel `packets.length + 1` (with each inner loop
given its separately proved sufficient fuel) always yields a completed
run. -/
theorem c10_driver_terminates (fs : Nat) (dec : DecoderState) (pending : Nat)
    (hfs : 0 < fs) : (runTranscode fs dec pending).isSome :=
  driverLoop_isSome (dec.packets.length + 1) fs ⟨dec, 0, 0, 0, ⟨0, pending⟩⟩ hfs hfs
    (Nat.lt_succ_self _)

theorem c10_driver_terminates_witness :
    0 < 2 ∧ (runTranscode 2 ⟨[.noData, .frame 5], [3]⟩ 4).isSome :=
  ⟨by decide, c10_driver_terminates 2 ⟨[.noData, .frame 5], [3]⟩ 4 (by decide)⟩

/-- C3: the claim asserts that opening succeeds only if the single stream is
a decodable *audio* stream.  The code never inspects the stream's media
type: an input with exactly one non-audio stream whose codec has a decoder
opens successfully (`openInputFile` returns 0 with the input left open). -/
theorem c3_counterexample :
    (openInputFile ⟨0, 0, 1, false, true, true, 0, 0⟩).ret = 0 ∧
    (⟨0, 0, 1, false, true, true, 0, 0⟩ : InputFileDesc).streamIsAudio = false :=
  ⟨rfl, rfl⟩

/-- C3 (amended): `openInputFile` (transcoder.cpp:56-125) succeeds exactly
when the open and stream-info calls succeed, the input has exactly one
stream — of any media type, audio is not checked — a decoder for its codec
id is found, and allocation, parameter copy and decoder open succeed; zero
or multiple streams, and a missing decoder, each fail with the format error
`AVERROR_EXIT` and close the input, before any frame is decoded; every
failure leaves the input closed. -/
theorem c3_amended_open_validation (f : InputFileDesc) :
    ((openInputFile f).ret = 0 ↔
      (0 ≤ f.openRet ∧ 0 ≤ f.streamInfoRet ∧ f.nbStreams = 1 ∧ f.decoderFound = true ∧
        f.allocCtxOk = true ∧ 0 ≤ f.paramsRet ∧ 0 ≤ f.codecOpenRet)) ∧
    ((openInputFile f).ret = 0 → (openInputFile f).inputOpen = true) ∧
    (0 ≤ f.openRet → 0 ≤ f.streamInfoRet → f.nbStreams ≠ 1 →
      openInputFile f = ⟨AVERROR_EXIT, false⟩) ∧
    (0 ≤ f.openRet → 0 ≤ f.streamInfoRet → f.nbStreams = 1 → f.decoderFound = false →
      openInputFile f = ⟨AVERROR_EXIT, false⟩) ∧
    ((openInputFile f).ret ≠ 0 → (openInputFile f).inputOpen = false) := by
  unfold openInputFile
  split_ifs with h1 h2 h3 h4 h5 h6 h7 <;>
    simp_all [AVERROR_EXIT, AVERROR_ENOMEM] <;>
    omega

theorem c3_amended_open_validation_witness :
    openInputFile ⟨0, 0, 3, true, true, true, 0, 0⟩ = ⟨AVERROR_EXIT, false⟩ :=
  (c3_amended_open_validation ⟨0, 0, 3, true, true, true, 0, 0⟩).2.2.1 (by decide)
    (by decide) (by decide)

/-- C6: `openOutputFile` configures the encoder by copying the input
stream's sample rate (transcoder.cpp:202), so in every run that reaches
`initResampler` the `av_assert0` at transcoder.cpp:311 — output sample rate
equals input sample rate — holds; its failure branch is unreachable under
the pipeline's own configuration. -/
theorem c6_rate_assert_unreachable (inCtx : InCodecCtx) (d : OutputOpenDesc)
    (outCtx : OutCodecCtx) (h : openOutputFile inCtx d = some outCtx) :
    resamplerRateAssert inCtx outCtx = true ∧ outCtx.sampleRate = inCtx.sampleRate := by
  simp only [openOutputFile] at h
  split_ifs at h
  all_goals
    first
    | exact Option.noConfusion h
    | (have hout : outCtx = ⟨OUTPUT_CHANNELS, inCtx.sampleRate, d.encSampleFmt0,
          OUTPUT_BIT_RATE, d.globalHeaderNeeded⟩ := (Option.some.inj h).symm
       subst hout
       exact ⟨by simp [resamplerRateAssert], rfl⟩)

theorem c6_rate_assert_unreachable_witness :
    resamplerRateAssert ⟨44100, 5, 1⟩ ⟨2, 44100, 8, 96000, true⟩ = true ∧
    (⟨2, 44100, 8, 96000, true⟩ : OutCodecCtx).sampleRate =
      (⟨44100, 5, 1⟩ : InCodecCtx).sampleRate :=
  c6_rate_assert_unreachable ⟨44100, 5, 1⟩ ⟨0, true, true, true, true, true, true, 8, true, 0, 0⟩
    ⟨2, 44100, 8, 96000, true⟩ rfl

/-- C7: the claim requires every acquired resource to be released exactly
once on every exit path.  The code violates this in
`readDecodeConvertAndStore`: the contiguous sample block allocated by
`av_samples_alloc` is acquired on every iteration that converts data, but
its release (`av_freep`, transcoder.cpp:598) is commented out, so the block
is leaked once per converted frame — even on the full-success path. -/
theorem c7_converted_samples_leak :
    (RdcasRes.sampleDataBlock ∈ rdcasAcquires true ∧
      RdcasRes.sampleDataBlock ∉ rdcasReleases true) ∧
    (rdcasAcquires true).count RdcasRes.sampleDataBlock = 1 ∧
    (rdcasReleases true).count RdcasRes.sampleDataBlock = 0 := by
  decide

/-- C8: the process exit status is 0 on every path: on pipeline success the
`Transcoder` constructor calls `exit(0)` immediately (transcoder.cpp:43-46),
and on pipeline failure no explicit nonzero exit happens — control falls
through and `main` returns 0 (main.cpp:13). -/
theorem c8_exit_status (processResult : Int) :
    exitStatus (mainRun processResult) = 0 ∧
    (mainRun processResult = ProcessExit.explicitCode 0 ↔ processResult = 0) := by
  unfold mainRun transcoderConstructor
  by_cases h : processResult = 0
  · simp [h, exitStatus]
  · simp [h, exitStatus]

/-- C9: the claim asserts that `pts` is pipeline-instance state, so every
run's first frame carries `pts` 0.  The code's `pts` is a file-scope
`static` (transcoder.cpp:35), process-wide: with two sequential runs in one
process, the second run's first frame carries the `pts` the first run
accumulated (here 2), not 0. -/
theorem c9_counterexample :
    (processTwoRuns 2 ⟨[.frame 2], []⟩ ⟨[.frame 2], []⟩ 0 0).map
      (fun rr => (framesOf rr.2.events).head?.map Prod.fst) = some (some 2) ∧
    (2 : Int) ≠ 0 :=
  ⟨rfl, by decide⟩

/-- C9 (amended): `pts` is process-wide static state shared across pipeline
runs in one process: the first run (starting from the static initializer 0)
stamps its frames from 0, and a second run in the same process inherits the
first run's accumulated counter — its frames continue from `r1.enc.pts`
rather than restarting at 0. -/
theorem c9_amended_pts_inherited (fs : Nat) (d1 d2 : DecoderState) (p1 p2 : Nat)
    (r1 r2 : DriverResult)
    (h : processTwoRuns fs d1 d2 p1 p2 = some (r1, r2)) :
    PtsOk 0 (framesOf r1.events) ∧ PtsOk r1.enc.pts (framesOf r2.events) := by
  unfold processTwoRuns at h
  cases h1 : runTranscode fs d1 p1 with
  | none =>
    simp only [h1] at h
    exact Option.noConfusion h
  | some r1' =>
    simp only [h1] at h
    cases h2 : driverLoop (d2.packets.length + 1) fs ⟨d2, 0, 0, 0, ⟨r1'.enc.pts, p2⟩⟩ with
    | none =>
      simp only [h2] at h
      exact Option.noConfusion h
    | some r2' =>
      simp only [h2] at h
      obtain ⟨hr1, hr2⟩ : r1' = r1 ∧ r2' = r2 := by
        simpa [Prod.ext_iff] using h
      subst hr1
      subst hr2
      have h1' : driverLoop (d1.packets.length + 1) fs ⟨d1, 0, 0, 0, ⟨0, p1⟩⟩ =
          some r1' := h1
      exact ⟨(driverLoop_spec _ _ _ _ h1').1, (driverLoop_spec _ _ _ _ h2).1⟩

theorem c9_amended_pts_inherited_witness :
    PtsOk 0 (framesOf [Event.encFrame 0 2, Event.encFlush true, Event.encFlush false,
      Event.trailer]) ∧
    PtsOk (⟨[Event.encFrame 0 2, Event.encFlush true, Event.encFlush false, Event.trailer],
        0, 2, 2, ⟨2, 0⟩⟩ : DriverResult).enc.pts
      (framesOf [Event.encFrame 2 2, Event.encFrame 4 2, Event.encFlush false,
        Event.trailer]) :=
  c9_amended_pts_inherited 2 ⟨[.frame 2], []⟩ ⟨[.frame 4], []⟩ 1 0
    ⟨[Event.encFrame 0 2, Event.encFlush true, Event.encFlush false, Event.trailer],
      0, 2, 2, ⟨2, 0⟩⟩
    ⟨[Event.encFrame 2 2, Event.encFrame 4 2, Event.encFlush false, Event.trailer],
      0, 4, 4, ⟨6, 0⟩⟩ rfl
